import Mathlib

/-
Verification of the dynamic-array container of `advanced-vector/vector.h`
(`RawMemory<T>` and `Vector<T>`), as a shallow embedding.

Memory model: a raw block is a list of slots, each slot either holding a
constructed element with a given value (`some v`) or being raw,
uninitialized memory (`none`).  The length of the list is the block's
capacity.  Placement-construction and assignment write a value into a slot;
`std::destroy_at` / `std::destroy_n` mark slots raw again, and invoking a
destructor on a slot that holds no constructed element is undefined
behavior, modelled as `Except.error`.  `List.set` ignores out-of-range
positions; where a source operation can write past the allocation this is
noted at the definition.  Exception paths of the source are modelled by
injecting a failure position into the copying loop (the standard
`std::uninitialized_copy_n` destroys the elements it had itself constructed
before letting the exception escape).
-/

namespace Adv

/-- The content of slot `i` of a block: `some v` when the slot holds a
constructed element of value `v`, `none` when the slot is raw (or beyond
the allocation). -/
def cellAt (cs : List (Option α)) (i : Nat) : Option α :=
  (cs[i]?).getD none

/-- `RawMemory<T>`: a block of `capacity` slots of raw storage.  Slots are
listed explicitly together with their construction state. -/
structure RawMemory (α : Type) where
  cells : List (Option α)
deriving DecidableEq, Repr

/-- `RawMemory::Capacity()`. -/
def RawMemory.capacity (m : RawMemory α) : Nat := m.cells.length

/-- `Vector<T>`: a raw block plus the count `size_` of live elements. -/
structure Vector (α : Type) where
  data : RawMemory α
  size : Nat
deriving DecidableEq, Repr

/-- `Vector()`: the default-constructed vector (null block, size 0). -/
def Vector.empty : Vector α := ⟨⟨[]⟩, 0⟩

/-- `Vector::Capacity()`. -/
def Vector.capacity (v : Vector α) : Nat := v.data.capacity

/-- `operator[]` at the slot level: the content of slot `i` of the
vector's block. -/
def Vector.elemAt (v : Vector α) (i : Nat) : Option α :=
  cellAt v.data.cells i

/-- Write the slot contents `vs` into consecutive slots of `c` starting at
slot `pos`: the value level of a sequential construction or assignment loop
(`std::uninitialized_copy_n`, `std::uninitialized_move_n`,
`std::uninitialized_value_construct_n`, `std::copy_n`).  An out-of-range
write is dropped by `List.set`; in the source such a write would be a
buffer overrun, noted where it can occur. -/
def writeSeq : List (Option α) → Nat → List (Option α) → List (Option α)
  | cs, _, [] => cs
  | cs, pos, v :: vs => writeSeq (cs.set pos v) (pos + 1) vs

/-- The contents of slots `[a, b)` of a block. -/
def slice (cs : List (Option α)) (a b : Nat) : List (Option α) :=
  (cs.drop a).take (b - a)

/-- `std::destroy_n(c + pos, n)`: mark `n` consecutive slots raw. -/
def destroyN (cs : List (Option α)) (pos n : Nat) : List (Option α) :=
  writeSeq cs pos (List.replicate n none)

/-- `Vector::CopyTo(new_data, from, to, pos)`: relocate the elements of
slots `[a, b)` into `newData` starting at slot `pos`, by move or copy
construction according to the transfer policy; the stored values agree in
either case. -/
def Vector.CopyTo (v : Vector α) (newData : List (Option α)) (a b pos : Nat) :
    List (Option α) :=
  writeSeq newData pos (slice v.data.cells a b)

/-- `Vector::SwapCopy(new_data)`: transfer all live elements into
`newData`, destroy the originals, and adopt `newData` (the old block is
discarded whole; `size_` is untouched). -/
def Vector.SwapCopy (v : Vector α) (newData : List (Option α)) : Vector α :=
  ⟨⟨v.CopyTo newData 0 v.size 0⟩, v.size⟩

/-- `Vector::Reserve(new_capacity)`. -/
def Vector.Reserve (v : Vector α) (newCapacity : Nat) : Vector α :=
  if newCapacity ≤ v.data.capacity then v
  else v.SwapCopy (List.replicate newCapacity none)

/-- `Vector::Resize(new_size)`.  The growth branch of the source
value-constructs the `new_size - size_` new elements starting at
`data_.GetAddress() + new_size` (not `+ size_`); this definition reproduces
that: the default values are written into slots starting at `newSize`. -/
def Vector.Resize [Inhabited α] (v : Vector α) (newSize : Nat) : Vector α :=
  if newSize < v.size then
    ⟨⟨destroyN v.data.cells newSize (v.size - newSize)⟩, newSize⟩
  else
    let v' := v.Reserve newSize
    ⟨⟨writeSeq v'.data.cells newSize
        (List.replicate (newSize - v.size) (some default))⟩, newSize⟩

/-- `Vector::EmplaceBack(args...)` constructing the value `x` (the
state-transforming part; the returned reference is `data_[size_ - 1]` of
the result). -/
def Vector.EmplaceBack (v : Vector α) (x : α) : Vector α :=
  if v.size = v.data.capacity then
    let newData :=
      (List.replicate (if v.size = 0 then 1 else v.size * 2)
        (none : Option α)).set v.size (some x)
    let v' := v.SwapCopy newData
    ⟨v'.data, v'.size + 1⟩
  else
    ⟨⟨v.data.cells.set v.size (some x)⟩, v.size + 1⟩

/-- `Vector::PushBack(value)`: delegates to `EmplaceBack`. -/
def Vector.PushBack (v : Vector α) (x : α) : Vector α :=
  v.EmplaceBack x

/-- `std::uninitialized_copy_n` at the value level with an injected
constructor failure: `failAt = some f` with `f` below the number of values
means the construction of the `f`-th element throws.  The algorithm
destroys the elements it had already constructed, so on failure the
destination block is handed back exactly as it came in. -/
def uninitializedCopyN (dst : List (Option α)) (pos : Nat)
    (vs : List (Option α)) (failAt : Option Nat) :
    Except (List (Option α)) (List (Option α)) :=
  match failAt with
  | some f => if f < vs.length then .error dst else .ok (writeSeq dst pos vs)
  | none => .ok (writeSeq dst pos vs)

/-- The growth path of `Vector::EmplaceBack` (taken when
`size_ == Capacity()`) with an injected failure in the element transfer
performed by `SwapCopy`'s call to `CopyTo`.  The source constructs the new
element into the fresh block at slot `size_` and then calls `SwapCopy`,
which contains no exception handler: on a transfer failure the exception
escapes with the vector untouched and the fresh block abandoned (its
memory is freed by `RawMemory`'s destructor, which destroys no element).
The error value carries the vector as observable at propagation together
with the slot contents of the abandoned block at propagation. -/
def Vector.EmplaceBackGrow (v : Vector α) (x : α) (failAt : Option Nat) :
    Except (Vector α × List (Option α)) (Vector α) :=
  let newData :=
    (List.replicate (if v.size = 0 then 1 else v.size * 2)
      (none : Option α)).set v.size (some x)
  match uninitializedCopyN newData 0 (slice v.data.cells 0 v.size) failAt with
  | .error ndBack => .error (v, ndBack)
  | .ok nd => .ok ⟨⟨nd⟩, v.size + 1⟩

/-- `Vector::PopBack()`. -/
def Vector.PopBack (v : Vector α) : Vector α :=
  if v.size = 0 then v
  else ⟨⟨v.data.cells.set (v.size - 1) none⟩, v.size - 1⟩

/-- The loop of `std::move(first, last, d)`, `n` steps of
`*d++ = std::move(*first++)` within one block; an assignment stores the
source slot's value in the destination slot. -/
def stdMoveGo : Nat → List (Option α) → Nat → Nat → List (Option α)
  | 0, cs, _, _ => cs
  | n + 1, cs, f, d => stdMoveGo n (cs.set d (cellAt cs f)) (f + 1) (d + 1)

/-- `std::move(first, last, d)` with slot indices in one block: assigns
slots `[first, last)` onto `[d, d + (last - first))`, front to back. -/
def stdMove (cs : List (Option α)) (first last d : Nat) : List (Option α) :=
  stdMoveGo (last - first) cs first d

/-- The loop of `std::move_backward`, `n` steps of
`*--d_last = std::move(*--last)`. -/
def stdMoveBackwardGo : Nat → List (Option α) → Nat → Nat → List (Option α)
  | 0, cs, _, _ => cs
  | n + 1, cs, l, dl =>
      stdMoveBackwardGo n (cs.set (dl - 1) (cellAt cs (l - 1))) (l - 1) (dl - 1)

/-- `std::move_backward(first, last, d_last)`: assigns slots `[first, last)`
onto `[d_last - (last - first), d_last)`, back to front. -/
def stdMoveBackward (cs : List (Option α)) (first last dlast : Nat) :
    List (Option α) :=
  stdMoveBackwardGo (last - first) cs last dlast

/-- `Vector::Erase(pos)` with `pos = begin() + d` for an integer offset
`d`.  Inside the accepted range `begin() <= pos <= end()` the source first
calls `std::destroy_at` on slot `idx = pos - begin()`: invoking the
destructor on a slot holding no constructed element is undefined behavior,
modelled as `Except.error` (this strikes before the size decrement, so the
`--size_` underflow of the empty case is subsumed by the error).  Otherwise
the tail is shifted one slot left with `std::move` and `size_` is
decremented.  The result pairs the vector with the returned iterator as an
offset from `begin()`. -/
def Vector.Erase (v : Vector α) (d : Int) : Except Unit (Vector α × Int) :=
  if 0 ≤ d ∧ d ≤ (v.size : Int) then
    let idx := d.toNat
    match cellAt v.data.cells idx with
    | some _ =>
        let c1 := v.data.cells.set idx none
        let c2 := stdMove c1 (idx + 1) v.size idx
        .ok (⟨⟨c2⟩, v.size - 1⟩, (idx : Int))
    | none => .error ()
  else
    .ok (v, (v.size : Int))

/-- `Vector::Emplace(pos, args...)` constructing the value `x`, with
`pos = begin() + d`.  On the growth path the new element is constructed
into the fresh block at its final slot, then the prefix and the shifted
suffix are transferred; on the in-place path a temporary holds the value,
the tail is shifted right with `std::move_backward`, and the temporary is
placed into the vacated slot.  The result pairs the vector with the
returned iterator as an offset from the (possibly new) `begin()`. -/
def Vector.Emplace (v : Vector α) (d : Int) (x : α) : Vector α × Int :=
  if 0 ≤ d ∧ d ≤ (v.size : Int) then
    let idx := d.toNat
    if v.size = v.data.capacity then
      let nd0 :=
        (List.replicate (if v.size = 0 then 1 else v.size * 2)
          (none : Option α)).set idx (some x)
      let nd1 := v.CopyTo nd0 0 idx 0
      let nd2 := v.CopyTo nd1 idx v.size (idx + 1)
      (⟨⟨nd2⟩, v.size + 1⟩, (idx : Int))
    else
      let c1 := stdMoveBackward v.data.cells idx v.size (v.size + 1)
      (⟨⟨c1.set idx (some x)⟩, v.size + 1⟩, (idx : Int))
  else
    (v, (v.size : Int))

/-- `Vector::Insert(pos, value)`: delegates to `Emplace`. -/
def Vector.Insert (v : Vector α) (d : Int) (x : α) : Vector α × Int :=
  v.Emplace d x

/-- `Vector::Swap(other)`: exchanges block and size wholesale. -/
def Vector.Swap (a b : Vector α) : Vector α × Vector α := (b, a)

/-- `Vector(const Vector&)`: a fresh block of exactly `other.size_` slots,
into which the live elements of `other` are copy-constructed. -/
def Vector.copyCtor (other : Vector α) : Vector α :=
  ⟨⟨writeSeq (List.replicate other.size none) 0
      (slice other.data.cells 0 other.size)⟩, other.size⟩

/-- `Vector(Vector&&)`: member-initializes to the default (empty, null
block) state and swaps with the source; returns the pair (constructed
vector, source after construction). -/
def Vector.moveCtor (other : Vector α) : Vector α × Vector α :=
  Vector.Swap Vector.empty other

/-- `Vector::CopyFrom(rhs)` (requires `rhs.size_ <= Capacity()`): assigns
the overlapping slots, then either destroys this vector's extra trailing
elements or copy-constructs the source's extra trailing elements into the
spare slots, and adopts the source's size. -/
def Vector.CopyFrom (v rhs : Vector α) : Vector α :=
  let cpSize := min v.size rhs.size
  let c1 := writeSeq v.data.cells 0 (slice rhs.data.cells 0 cpSize)
  if rhs.size < v.size then
    ⟨⟨destroyN c1 cpSize (v.size - cpSize)⟩, rhs.size⟩
  else
    ⟨⟨writeSeq c1 cpSize (slice rhs.data.cells cpSize rhs.size)⟩, rhs.size⟩

/-- `operator=(const Vector&)`.  The source guards with `this != &rhs`;
the pointer identity of the two operands is passed as the flag `self`
(`true` exactly when both sides are one object, in which case `rhs` is
`v` itself). -/
def Vector.copyAssign (v rhs : Vector α) (self : Bool) : Vector α :=
  if self then v
  else if v.data.capacity < rhs.size then Vector.copyCtor rhs
  else v.CopyFrom rhs

/-- `Vector(const Vector&)` with an injected copy-constructor failure:
`std::uninitialized_copy_n` destroys what it had built, the fresh block is
freed, the exception propagates. -/
def Vector.copyCtorThrow (other : Vector α) (failAt : Option Nat) :
    Except Unit (Vector α) :=
  match uninitializedCopyN (List.replicate other.size none) 0
      (slice other.data.cells 0 other.size) failAt with
  | .error _ => .error ()
  | .ok cs => .ok ⟨⟨cs⟩, other.size⟩

/-- `operator=(const Vector&)` on distinct objects with an injected
failure inside the deep-copy branch: the copy of `rhs` is fully built
before `Swap`, so a failure propagates with `v` untouched (the error value
is the left operand as observable at propagation). -/
def Vector.copyAssignThrow (v rhs : Vector α) (failAt : Option Nat) :
    Except (Vector α) (Vector α) :=
  if v.data.capacity < rhs.size then
    match Vector.copyCtorThrow rhs failAt with
    | .error _ => .error v
    | .ok w => .ok w
  else .ok (v.CopyFrom rhs)

/-- `operator=(Vector&&)`: guarded by `this != &rhs` (the flag `self` as
in `copyAssign`), otherwise a wholesale swap.  Returns the pair
(left operand after, right operand after). -/
def Vector.moveAssign (v rhs : Vector α) (self : Bool) : Vector α × Vector α :=
  if self then (v, rhs) else Vector.Swap v rhs

/-- The container invariant as the specification states it: the size is
bounded by the capacity and every logical index below the size holds a
constructed element (density and order are inherent in the slot list). -/
def Vector.invariantHolds (v : Vector α) : Prop :=
  v.size ≤ v.data.capacity ∧ ∀ i < v.size, v.elemAt i ≠ none

/-- The full well-formedness of a vector state: additionally, every slot
from the size up to the capacity is raw. -/
def Vector.WF (v : Vector α) : Prop :=
  v.size ≤ v.data.capacity ∧
  (∀ i < v.size, v.elemAt i ≠ none) ∧
  (∀ i < v.data.capacity, v.size ≤ i → v.elemAt i = none)

instance decidableInvariantHolds [DecidableEq α] (v : Vector α) :
    Decidable v.invariantHolds :=
  inferInstanceAs (Decidable (v.size ≤ v.data.capacity ∧
    ∀ i < v.size, v.elemAt i ≠ none))

instance decidableWF [DecidableEq α] (v : Vector α) : Decidable v.WF :=
  inferInstanceAs (Decidable (v.size ≤ v.data.capacity ∧
    (∀ i < v.size, v.elemAt i ≠ none) ∧
    (∀ i < v.data.capacity, v.size ≤ i → v.elemAt i = none)))

/-- The vector obtained from the default-constructed vector by one
`PushBack` per element of `xs`, in order. -/
def pushSeq (xs : List α) : Vector α :=
  xs.foldl Vector.PushBack Vector.empty

/-- The capacity bookkeeping established by `PushBack` chains: the state
is well formed, an empty vector that has seen no growth has capacity 0,
and a nonempty one has as capacity the least power of two at or above its
size (a power of two below twice the size). -/
def capOK (v : Vector α) : Prop :=
  v.WF ∧ (v.size = 0 → v.data.capacity = 0) ∧
  (1 ≤ v.size → (∃ i, v.data.capacity = 2 ^ i) ∧ v.size ≤ v.data.capacity ∧
    v.data.capacity < 2 * v.size)

end Adv

namespace Adv

theorem writeSeq_length (vs : List (Option α)) :
    ∀ (cs : List (Option α)) (pos : Nat), (writeSeq cs pos vs).length = cs.length := by
  induction vs with
  | nil => intro cs pos; rfl
  | cons v vs ih => intro cs pos; rw [writeSeq, ih, List.length_set]

theorem writeSeq_getElem? (vs : List (Option α)) :
    ∀ (cs : List (Option α)) (pos k : Nat), pos + vs.length ≤ cs.length →
      (writeSeq cs pos vs)[k]? =
        if pos ≤ k ∧ k < pos + vs.length then vs[k - pos]? else cs[k]? := by
  induction vs with
  | nil =>
      intro cs pos k _
      simp only [writeSeq, List.length_nil]
      rw [if_neg (by omega : ¬ (pos ≤ k ∧ k < pos + 0))]
  | cons v vs ih =>
      intro cs pos k h
      simp only [List.length_cons] at h ⊢
      have h' : (pos + 1) + vs.length ≤ (cs.set pos v).length := by
        rw [List.length_set]; omega
      rw [writeSeq, ih (cs.set pos v) (pos + 1) k h']
      by_cases hk : k = pos
      · rw [hk]
        have h1 : ¬ (pos + 1 ≤ pos ∧ pos < pos + 1 + vs.length) := by omega
        have h2 : pos ≤ pos ∧ pos < pos + (vs.length + 1) := by omega
        rw [if_neg h1, if_pos h2]
        have hlt : pos < cs.length := by omega
        rw [List.getElem?_set_self hlt]
        simp
      · by_cases hm : pos + 1 ≤ k ∧ k < pos + 1 + vs.length
        · have h2 : pos ≤ k ∧ k < pos + (vs.length + 1) := by omega
          rw [if_pos hm, if_pos h2]
          have : k - pos = (k - (pos + 1)) + 1 := by omega
          rw [this, List.getElem?_cons_succ]
        · have h2 : ¬ (pos ≤ k ∧ k < pos + (vs.length + 1)) := by omega
          rw [if_neg hm, if_neg h2, List.getElem?_set_ne (by omega : pos ≠ k)]

theorem slice_length (cs : List (Option α)) (a b : Nat) (h : b ≤ cs.length) :
    (slice cs a b).length = b - a := by
  simp [slice]; omega

theorem slice_getElem? (cs : List (Option α)) (a b j : Nat) (h : j < b - a) :
    (slice cs a b)[j]? = cs[a + j]? := by
  rw [slice, List.getElem?_take_of_lt h, List.getElem?_drop]

theorem stdMoveGo_getElem? (n : Nat) :
    ∀ (cs : List (Option α)) (f d k : Nat), d < f → f + n ≤ cs.length →
      (stdMoveGo n cs f d)[k]? =
        if d ≤ k ∧ k < d + n then cs[k + (f - d)]? else cs[k]? := by
  induction n with
  | zero =>
      intro cs f d k _ _
      have hc : ¬ (d ≤ k ∧ k < d + 0) := by omega
      simp only [stdMoveGo, if_neg hc]
  | succ n ih =>
      intro cs f d k hdf h
      rw [stdMoveGo, ih (cs.set d (cellAt cs f)) (f + 1) (d + 1) k (by omega)
        (by rw [List.length_set]; omega)]
      by_cases hk : k = d
      · rw [hk]
        have h1 : ¬ (d + 1 ≤ d ∧ d < d + 1 + n) := by omega
        have h2 : d ≤ d ∧ d < d + (n + 1) := by omega
        rw [if_neg h1, if_pos h2, List.getElem?_set_self (by omega : d < cs.length)]
        have hf : d + (f - d) = f := by omega
        rw [hf, List.getElem?_eq_getElem (by omega : f < cs.length)]
        simp [cellAt, List.getElem?_eq_getElem (by omega : f < cs.length)]
      · by_cases hm : d + 1 ≤ k ∧ k < d + 1 + n
        · have h2 : d ≤ k ∧ k < d + (n + 1) := by omega
          rw [if_pos hm, if_pos h2]
          have he : k + (f + 1 - (d + 1)) = k + (f - d) := by omega
          rw [he, List.getElem?_set_ne (by omega : d ≠ k + (f - d))]
        · have h2 : ¬ (d ≤ k ∧ k < d + (n + 1)) := by omega
          rw [if_neg hm, if_neg h2, List.getElem?_set_ne (by omega : d ≠ k)]

theorem stdMoveBackwardGo_getElem? (n : Nat) :
    ∀ (cs : List (Option α)) (l dl k : Nat), l < dl → n ≤ l → dl ≤ cs.length →
      (stdMoveBackwardGo n cs l dl)[k]? =
        if dl - n ≤ k ∧ k < dl then cs[k - (dl - l)]? else cs[k]? := by
  induction n with
  | zero =>
      intro cs l dl k _ _ _
      have hc : ¬ (dl - 0 ≤ k ∧ k < dl) := by omega
      simp only [stdMoveBackwardGo, if_neg hc]
  | succ n ih =>
      intro cs l dl k hldl hnl hlen
      rw [stdMoveBackwardGo, ih (cs.set (dl - 1) (cellAt cs (l - 1))) (l - 1) (dl - 1) k
        (by omega) (by omega) (by rw [List.length_set]; omega)]
      by_cases hk : k = dl - 1
      · rw [hk]
        have h1 : ¬ (dl - 1 - n ≤ dl - 1 ∧ dl - 1 < dl - 1) := by omega
        have h2 : dl - (n + 1) ≤ dl - 1 ∧ dl - 1 < dl := by omega
        rw [if_neg h1, if_pos h2, List.getElem?_set_self (by omega : dl - 1 < cs.length)]
        have he : dl - 1 - (dl - l) = l - 1 := by omega
        rw [he, List.getElem?_eq_getElem (by omega : l - 1 < cs.length)]
        simp [cellAt, List.getElem?_eq_getElem (by omega : l - 1 < cs.length)]
      · by_cases hm : dl - 1 - n ≤ k ∧ k < dl - 1
        · have h2 : dl - (n + 1) ≤ k ∧ k < dl := by omega
          rw [if_pos hm, if_pos h2]
          have he : k - (dl - 1 - (l - 1)) = k - (dl - l) := by omega
          rw [he, List.getElem?_set_ne (by omega : dl - 1 ≠ k - (dl - l))]
        · have h2 : ¬ (dl - (n + 1) ≤ k ∧ k < dl) := by omega
          rw [if_neg hm, if_neg h2, List.getElem?_set_ne (by omega : dl - 1 ≠ k)]

end Adv

namespace Adv

theorem stdMoveGo_length (n : Nat) :
    ∀ (cs : List (Option α)) (f d : Nat), (stdMoveGo n cs f d).length = cs.length := by
  induction n with
  | zero => intro cs f d; rfl
  | succ n ih => intro cs f d; rw [stdMoveGo, ih, List.length_set]

theorem stdMoveBackwardGo_length (n : Nat) :
    ∀ (cs : List (Option α)) (l dl : Nat),
      (stdMoveBackwardGo n cs l dl).length = cs.length := by
  induction n with
  | zero => intro cs l dl; rfl
  | succ n ih => intro cs l dl; rw [stdMoveBackwardGo, ih, List.length_set]

theorem SwapCopy_size (v : Vector α) (nd : List (Option α)) :
    (v.SwapCopy nd).size = v.size := rfl

theorem SwapCopy_length (v : Vector α) (nd : List (Option α)) :
    (v.SwapCopy nd).data.cells.length = nd.length :=
  writeSeq_length _ _ _

theorem SwapCopy_getElem? (v : Vector α) (nd : List (Option α))
    (hsz : v.size ≤ v.data.cells.length) (hnd : v.size ≤ nd.length) (k : Nat) :
    (v.SwapCopy nd).data.cells[k]? =
      if k < v.size then v.data.cells[k]? else nd[k]? := by
  show (writeSeq nd 0 (slice v.data.cells 0 v.size))[k]? = _
  have hs : (slice v.data.cells 0 v.size).length = v.size := by
    rw [slice_length _ _ _ hsz]; omega
  rw [writeSeq_getElem? _ _ _ _ (by rw [hs]; omega), hs]
  by_cases hk : k < v.size
  · rw [if_pos ⟨Nat.zero_le k, by omega⟩, if_pos hk,
      slice_getElem? _ _ _ _ (by omega)]
    simp
  · rw [if_neg (by omega), if_neg hk]

theorem size_lt_grow (n : Nat) : n < if n = 0 then 1 else n * 2 := by
  split <;> omega

theorem EmplaceBack_size (v : Vector α) (x : α) :
    (v.EmplaceBack x).size = v.size + 1 := by
  unfold Vector.EmplaceBack
  split <;> rfl

theorem EmplaceBack_capacity (v : Vector α) (x : α) :
    (v.EmplaceBack x).data.capacity =
      if v.size = v.data.capacity then (if v.size = 0 then 1 else v.size * 2)
      else v.data.capacity := by
  unfold Vector.EmplaceBack
  split
  case isTrue h =>
    show (v.SwapCopy _).data.cells.length = _
    rw [SwapCopy_length, List.length_set, List.length_replicate]
  case isFalse h =>
    show (v.data.cells.set v.size (some x)).length = v.data.cells.length
    rw [List.length_set]

theorem EmplaceBack_elemAt (v : Vector α) (x : α) (hsz : v.size ≤ v.data.capacity)
    (i : Nat) (hi : i ≤ v.size) :
    (v.EmplaceBack x).elemAt i = if i = v.size then some x else v.elemAt i := by
  unfold Vector.EmplaceBack
  split
  case isTrue h =>
    show cellAt ((v.SwapCopy _).data.cells) i = _
    rw [cellAt, SwapCopy_getElem? v _ (show v.size ≤ v.data.cells.length from hsz)
      (by rw [List.length_set, List.length_replicate]
          exact Nat.le_of_lt (size_lt_grow v.size))]
    by_cases hk : i < v.size
    · rw [if_pos hk, if_neg (by omega)]
      rfl
    · have hie : i = v.size := by omega
      rw [if_neg hk, if_pos hie, hie,
        List.getElem?_set_self (by rw [List.length_replicate]; exact size_lt_grow v.size)]
      rfl
  case isFalse h =>
    show cellAt (v.data.cells.set v.size (some x)) i = _
    by_cases hie : i = v.size
    · rw [hie, if_pos rfl, cellAt,
        List.getElem?_set_self (by
          show v.size < v.data.cells.length
          have : v.size < v.data.capacity := Nat.lt_of_le_of_ne hsz h
          exact this)]
      rfl
    · rw [if_neg hie, cellAt, List.getElem?_set_ne (by omega : v.size ≠ i)]
      rfl

theorem EmplaceBack_WF (v : Vector α) (x : α) (hwf : v.WF) :
    (v.EmplaceBack x).WF := by
  obtain ⟨hc, hlive, hraw⟩ := hwf
  refine ⟨?_, ?_, ?_⟩
  · rw [EmplaceBack_size, EmplaceBack_capacity]
    split
    case isTrue h => have := size_lt_grow v.size; omega
    case isFalse h => omega
  · intro i hi
    rw [EmplaceBack_size] at hi
    rw [EmplaceBack_elemAt v x hc i (by omega)]
    split
    case isTrue h => simp
    case isFalse h => exact hlive i (by omega)
  · intro i hicap hile
    rw [EmplaceBack_size] at hile
    rw [EmplaceBack_capacity] at hicap
    unfold Vector.EmplaceBack
    split
    case isTrue h =>
      rw [if_pos h] at hicap
      show cellAt ((v.SwapCopy _).data.cells) i = none
      rw [cellAt, SwapCopy_getElem? v _ (show v.size ≤ v.data.cells.length from hc)
        (by rw [List.length_set, List.length_replicate]
            exact Nat.le_of_lt (size_lt_grow v.size))]
      rw [if_neg (by omega)]
      rw [List.getElem?_set_ne (by omega : v.size ≠ i)]
      rw [List.getElem?_replicate]
      rw [if_pos hicap]
      rfl
    case isFalse h =>
      rw [if_neg h] at hicap
      show cellAt (v.data.cells.set v.size (some x)) i = none
      rw [cellAt, List.getElem?_set_ne (by omega : v.size ≠ i)]
      exact hraw i hicap (by omega)

end Adv

namespace Adv

theorem capOK_empty : capOK (Vector.empty : Vector α) :=
  ⟨⟨Nat.le_refl 0, fun i hi => absurd hi (Nat.not_lt_zero i),
    fun i hi _ => absurd hi (Nat.not_lt_zero i)⟩,
   fun _ => rfl, fun h => absurd h (Nat.not_succ_le_zero 0)⟩

theorem capOK_push (v : Vector α) (x : α) (h : capOK v) : capOK (v.PushBack x) := by
  obtain ⟨hwf, h0, h1⟩ := h
  refine ⟨EmplaceBack_WF v x hwf, ?_, ?_⟩
  · intro hsz
    rw [Vector.PushBack, EmplaceBack_size] at hsz
    omega
  · intro _
    rw [Vector.PushBack, EmplaceBack_size, EmplaceBack_capacity]
    by_cases hc : v.size = v.data.capacity
    · rw [if_pos hc]
      by_cases hz : v.size = 0
      · rw [if_pos hz, hz]
        exact ⟨⟨0, rfl⟩, by omega, by omega⟩
      · rw [if_neg hz]
        obtain ⟨⟨i, hi⟩, hle, hlt⟩ := h1 (by omega)
        refine ⟨⟨i + 1, ?_⟩, by omega, by omega⟩
        rw [pow_succ, ← hi, hc]
    · rw [if_neg hc]
      have hz : v.size ≠ 0 := by
        intro hz
        exact hc (by rw [hz, h0 hz])
      obtain ⟨⟨i, hi⟩, hle, hlt⟩ := h1 (by omega)
      have : v.size < v.data.capacity := Nat.lt_of_le_of_ne hwf.1 hc
      exact ⟨⟨i, hi⟩, by omega, by omega⟩

theorem capOK_foldl (xs : List α) :
    ∀ v : Vector α, capOK v → capOK (xs.foldl Vector.PushBack v) := by
  induction xs with
  | nil => intro v h; exact h
  | cons y ys ih => intro v h; exact ih _ (capOK_push v y h)

theorem foldl_PushBack_size (xs : List α) :
    ∀ v : Vector α, (xs.foldl Vector.PushBack v).size = v.size + xs.length := by
  induction xs with
  | nil => intro v; simp
  | cons y ys ih =>
      intro v
      rw [List.foldl_cons, ih, Vector.PushBack, EmplaceBack_size, List.length_cons]
      omega

theorem pow2_minimal {i j k : Nat} (h2 : 2 ^ i < 2 * k)
    (hj : k ≤ 2 ^ j) : 2 ^ i ≤ 2 ^ j := by
  rcases le_or_lt i j with h | h
  · exact Nat.pow_le_pow_right (by omega) h
  · have h3 : 2 ^ (j + 1) ≤ 2 ^ i := Nat.pow_le_pow_right (by omega) h
    rw [pow_succ] at h3
    omega

end Adv

namespace Adv

theorem Erase_outside (v : Vector α) (d : Int) (h : d < 0 ∨ (v.size : Int) < d) :
    v.Erase d = Except.ok (v, (v.size : Int)) := by
  unfold Vector.Erase
  rw [if_neg (by omega)]

theorem WF_elemAt_size (v : Vector α) (hwf : v.WF) : v.elemAt v.size = none := by
  rcases Nat.lt_or_ge v.size v.data.capacity with h | h
  · exact hwf.2.2 v.size h (Nat.le_refl _)
  · have hlen : v.data.cells.length ≤ v.size := h
    rw [Vector.elemAt, cellAt, List.getElem?_eq_none hlen]
    rfl

theorem Erase_at_end (v : Vector α) (hraw : v.elemAt v.size = none) :
    v.Erase (v.size : Int) = Except.error () := by
  unfold Vector.Erase
  rw [if_pos ⟨by omega, le_refl _⟩]
  have ht : ((v.size : Int)).toNat = v.size := Int.toNat_natCast v.size
  rw [ht]
  dsimp only
  have hsc : cellAt v.data.cells v.size = none := hraw
  rw [hsc]

theorem Erase_ok_char (v : Vector α) (idx : Nat) (hi : idx < v.size)
    (hlen : v.size ≤ v.data.cells.length) (hl : v.elemAt idx ≠ none) :
    ∃ v' : Vector α,
      v.Erase (idx : Int) = Except.ok (v', (idx : Int)) ∧
      v'.size = v.size - 1 ∧ v'.data.capacity = v.data.capacity ∧
      (∀ i, i < idx → v'.elemAt i = v.elemAt i) ∧
      (∀ i, idx ≤ i → i < v.size - 1 → v'.elemAt i = v.elemAt (i + 1)) := by
  obtain ⟨a, ha⟩ : ∃ a, cellAt v.data.cells idx = some a := by
    rcases hx : cellAt v.data.cells idx with _ | a
    · exact absurd hx hl
    · exact ⟨a, rfl⟩
  unfold Vector.Erase
  rw [if_pos ⟨by omega, by omega⟩, Int.toNat_natCast]
  dsimp only
  rw [ha]
  refine ⟨_, rfl, rfl, ?_, ?_, ?_⟩
  · show (stdMove (v.data.cells.set idx none) (idx + 1) v.size idx).length =
      v.data.cells.length
    rw [stdMove, stdMoveGo_length, List.length_set]
  · intro i hiidx
    show cellAt (stdMove (v.data.cells.set idx none) (idx + 1) v.size idx) i =
      cellAt v.data.cells i
    rw [stdMove, cellAt, cellAt,
      stdMoveGo_getElem? _ _ _ _ _ (by omega) (by rw [List.length_set]; omega),
      if_neg (by omega), List.getElem?_set_ne (by omega : idx ≠ i)]
  · intro i hge hlt
    show cellAt (stdMove (v.data.cells.set idx none) (idx + 1) v.size idx) i =
      cellAt v.data.cells (i + 1)
    rw [stdMove, cellAt, cellAt,
      stdMoveGo_getElem? _ _ _ _ _ (by omega) (by rw [List.length_set]; omega),
      if_pos ⟨by omega, by omega⟩]
    have he : i + (idx + 1 - idx) = i + 1 := by omega
    rw [he, List.getElem?_set_ne (by omega : idx ≠ i + 1)]

end Adv

namespace Adv

theorem Emplace_outside (v : Vector α) (x : α) (d : Int)
    (h : d < 0 ∨ (v.size : Int) < d) :
    v.Emplace d x = (v, (v.size : Int)) := by
  unfold Vector.Emplace
  rw [if_neg (by omega)]

theorem Emplace_char (v : Vector α) (hsz : v.size ≤ v.data.capacity)
    (idx : Nat) (hidx : idx ≤ v.size) (x : α) :
    ∃ v' : Vector α,
      v.Emplace (idx : Int) x = (v', (idx : Int)) ∧
      v'.size = v.size + 1 ∧
      v'.size ≤ v'.data.cells.length ∧
      (∀ i, i < idx → v'.elemAt i = v.elemAt i) ∧
      v'.elemAt idx = some x ∧
      (∀ i, idx < i → i ≤ v.size → v'.elemAt i = v.elemAt (i - 1)) := by
  have hlen : v.size ≤ v.data.cells.length := hsz
  unfold Vector.Emplace
  rw [if_pos ⟨by omega, by omega⟩, Int.toNat_natCast]
  dsimp only
  split
  case isTrue hc =>
    have hsize : v.size = v.data.cells.length := hc
    have hgrow : v.size < (if v.size = 0 then 1 else v.size * 2) := size_lt_grow v.size
    have hnd0len :
        (((List.replicate (if v.size = 0 then 1 else v.size * 2) (none : Option α)).set
          idx (some x))).length = (if v.size = 0 then 1 else v.size * 2) := by
      rw [List.length_set, List.length_replicate]
    have hs1 : (slice v.data.cells 0 idx).length = idx := by
      rw [slice_length _ _ _ (by omega)]; omega
    have hs2 : (slice v.data.cells idx v.size).length = v.size - idx := by
      rw [slice_length _ _ _ (by omega)]
    have hnd1len :
        (v.CopyTo ((List.replicate (if v.size = 0 then 1 else v.size * 2)
            (none : Option α)).set idx (some x)) 0 idx 0).length =
          (if v.size = 0 then 1 else v.size * 2) := by
      rw [Vector.CopyTo, writeSeq_length, hnd0len]
    refine ⟨_, rfl, rfl, ?_, ?_, ?_, ?_⟩
    · show v.size + 1 ≤ (v.CopyTo _ idx v.size (idx + 1)).length
      rw [Vector.CopyTo, writeSeq_length, hnd1len]
      omega
    · intro i hilt
      show cellAt (v.CopyTo _ idx v.size (idx + 1)) i = cellAt v.data.cells i
      rw [Vector.CopyTo, cellAt, cellAt,
        writeSeq_getElem? _ _ _ _ (by rw [hs2, hnd1len]; omega),
        if_neg (by omega)]
      rw [Vector.CopyTo,
        writeSeq_getElem? _ _ _ _ (by rw [hs1, hnd0len]; omega),
        if_pos ⟨by omega, by omega⟩, slice_getElem? _ _ _ _ (by omega)]
      simp
    · show cellAt (v.CopyTo _ idx v.size (idx + 1)) idx = some x
      rw [Vector.CopyTo, cellAt,
        writeSeq_getElem? _ _ _ _ (by rw [hs2, hnd1len]; omega),
        if_neg (by omega)]
      rw [Vector.CopyTo,
        writeSeq_getElem? _ _ _ _ (by rw [hs1, hnd0len]; omega),
        if_neg (by omega),
        List.getElem?_set_self (by rw [List.length_replicate]; omega)]
      rfl
    · intro i hgt hle
      show cellAt (v.CopyTo _ idx v.size (idx + 1)) i = cellAt v.data.cells (i - 1)
      rw [Vector.CopyTo, cellAt, cellAt,
        writeSeq_getElem? _ _ _ _ (by rw [hs2, hnd1len]; omega),
        if_pos ⟨by omega, by rw [hs2]; omega⟩,
        slice_getElem? _ _ _ _ (by omega)]
      have he : idx + (i - (idx + 1)) = i - 1 := by omega
      rw [he]
  case isFalse hc =>
    have hlt : v.size < v.data.cells.length := Nat.lt_of_le_of_ne hlen hc
    have hc1len :
        (stdMoveBackward v.data.cells idx v.size (v.size + 1)).length =
          v.data.cells.length := by
      rw [stdMoveBackward, stdMoveBackwardGo_length]
    refine ⟨_, rfl, rfl, ?_, ?_, ?_, ?_⟩
    · show v.size + 1 ≤ ((stdMoveBackward v.data.cells idx v.size (v.size + 1)).set
        idx (some x)).length
      rw [List.length_set, hc1len]
      omega
    · intro i hilt
      show cellAt ((stdMoveBackward v.data.cells idx v.size (v.size + 1)).set
        idx (some x)) i = cellAt v.data.cells i
      rw [cellAt, cellAt, List.getElem?_set_ne (by omega : idx ≠ i),
        stdMoveBackward,
        stdMoveBackwardGo_getElem? _ _ _ _ _ (by omega) (by omega) (by omega),
        if_neg (by omega)]
    · show cellAt ((stdMoveBackward v.data.cells idx v.size (v.size + 1)).set
        idx (some x)) idx = some x
      rw [cellAt, List.getElem?_set_self (by rw [hc1len]; omega)]
      rfl
    · intro i hgt hle
      show cellAt ((stdMoveBackward v.data.cells idx v.size (v.size + 1)).set
        idx (some x)) i = cellAt v.data.cells (i - 1)
      rw [cellAt, cellAt, List.getElem?_set_ne (by omega : idx ≠ i),
        stdMoveBackward,
        stdMoveBackwardGo_getElem? _ _ _ _ _ (by omega) (by omega) (by omega),
        if_pos ⟨by omega, by omega⟩]
      have he : i - (v.size + 1 - v.size) = i - 1 := by omega
      rw [he]

end Adv

namespace Adv

theorem copyCtor_char (b : Vector α) (hb : b.size ≤ b.data.cells.length) :
    (Vector.copyCtor b).size = b.size ∧
    (Vector.copyCtor b).data.capacity = b.size ∧
    ∀ i < b.size, (Vector.copyCtor b).elemAt i = b.elemAt i := by
  have hs : (slice b.data.cells 0 b.size).length = b.size := by
    rw [slice_length _ _ _ hb]; omega
  refine ⟨rfl, ?_, ?_⟩
  · show (writeSeq (List.replicate b.size none) 0 _).length = b.size
    rw [writeSeq_length, List.length_replicate]
  · intro i hi
    show cellAt (writeSeq (List.replicate b.size none) 0 _) i = cellAt b.data.cells i
    rw [cellAt, cellAt,
      writeSeq_getElem? _ _ _ _ (by rw [hs, List.length_replicate]; omega),
      if_pos ⟨by omega, by rw [hs]; omega⟩, slice_getElem? _ _ _ _ (by omega)]
    simp

theorem CopyFrom_char (a b : Vector α) (ha : a.size ≤ a.data.cells.length)
    (hb : b.size ≤ b.data.cells.length) (hcap : b.size ≤ a.data.cells.length) :
    (a.CopyFrom b).size = b.size ∧
    (a.CopyFrom b).data.capacity = a.data.capacity ∧
    ∀ i < b.size, (a.CopyFrom b).elemAt i = b.elemAt i := by
  have hs1 : (slice b.data.cells 0 (min a.size b.size)).length = min a.size b.size := by
    rw [slice_length _ _ _ (by omega)]; omega
  have hc1len : (writeSeq a.data.cells 0
      (slice b.data.cells 0 (min a.size b.size))).length = a.data.cells.length := by
    rw [writeSeq_length]
  unfold Vector.CopyFrom
  dsimp only
  split
  case isTrue hlt =>
    have hmin : min a.size b.size = b.size := by omega
    refine ⟨rfl, ?_, ?_⟩
    · show (destroyN _ _ _).length = a.data.cells.length
      rw [destroyN, writeSeq_length, hc1len]
    · intro i hi
      show cellAt (destroyN _ _ _) i = cellAt b.data.cells i
      rw [destroyN, cellAt, cellAt,
        writeSeq_getElem? _ _ _ _
          (by rw [List.length_replicate, hc1len]; omega),
        if_neg (by rw [List.length_replicate]; omega)]
      rw [writeSeq_getElem? _ _ _ _ (by rw [hs1]; omega),
        if_pos ⟨by omega, by rw [hs1]; omega⟩,
        slice_getElem? _ _ _ _ (by omega)]
      simp
  case isFalse hge =>
    have hmin : min a.size b.size = a.size := by omega
    have hs2 : (slice b.data.cells (min a.size b.size) b.size).length =
        b.size - min a.size b.size := by
      rw [slice_length _ _ _ (by omega)]
    refine ⟨rfl, ?_, ?_⟩
    · show (writeSeq _ _ _).length = a.data.cells.length
      rw [writeSeq_length, hc1len]
    · intro i hi
      show cellAt (writeSeq _ _ _) i = cellAt b.data.cells i
      rw [cellAt, cellAt,
        writeSeq_getElem? _ _ _ _ (by rw [hs2, hc1len]; omega)]
      by_cases hcase : min a.size b.size ≤ i
      · rw [if_pos ⟨hcase, by rw [hs2]; omega⟩,
          slice_getElem? _ _ _ _ (by omega)]
        have he : min a.size b.size + (i - min a.size b.size) = i := by omega
        rw [he]
      · rw [if_neg (by rw [hs2]; omega)]
        rw [writeSeq_getElem? _ _ _ _ (by rw [hs1]; omega),
          if_pos ⟨by omega, by rw [hs1]; omega⟩,
          slice_getElem? _ _ _ _ (by omega)]
        simp

end Adv

namespace Adv

/-- C1: the `reserve(0); reserve(5); resize(3)` scenario on an empty
array.  The claim asserts size 3, capacity at least 5 and three
default-value elements at logical indices 0, 1, 2; the code yields size 3
and capacity 5 but leaves slots 0, 1, 2 unconstructed, because `Resize`
value-constructs starting at slot `new_size` (= 3) instead of `size_`
(the run even attempts one write past the capacity, at slot 5). -/
theorem claim1_resize_scenario :
    ((((Vector.empty : Vector Nat).Reserve 0).Reserve 5).Resize 3).size = 3 ∧
    ((((Vector.empty : Vector Nat).Reserve 0).Reserve 5).Resize 3).data.capacity = 5 ∧
    ((((Vector.empty : Vector Nat).Reserve 0).Reserve 5).Resize 3).elemAt 0 = none ∧
    ((((Vector.empty : Vector Nat).Reserve 0).Reserve 5).Resize 3).elemAt 1 = none ∧
    ((((Vector.empty : Vector Nat).Reserve 0).Reserve 5).Resize 3).elemAt 2 = none ∧
    ((((Vector.empty : Vector Nat).Reserve 0).Reserve 5).Resize 3).elemAt 3 = some 0 ∧
    ((((Vector.empty : Vector Nat).Reserve 0).Reserve 5).Resize 3).elemAt 4 = some 0 := by
  decide

/-- C2: growth-path `EmplaceBack` on the full one-element vector `[7]`,
appending 9, with the copy of element 0 into the new block throwing.  The
already-transferred elements are destroyed and the vector is observably
unchanged, as the claim states; but the new element, constructed at slot 1
of the new block, is still constructed when the exception escapes
(`SwapCopy` has no handler, and `RawMemory`'s destructor frees the block
without destroying elements), so the claim's requirement that the new
element be destroyed fails. -/
theorem claim2_emplaceBack_transfer_throw :
    (⟨⟨[some 7]⟩, 1⟩ : Vector Nat).EmplaceBackGrow 9 (some 0) =
      Except.error ((⟨⟨[some 7]⟩, 1⟩ : Vector Nat), [none, some 9]) := by
  rfl

/-- C3 counterexample: on the empty array the position `begin()` (equal to
`end()`) lies inside the accepted range `[begin, end]`, and the claim
asserts that `Erase` destroys the element there, shifts the tail, and
decrements the size, i.e. that the erase completes.  The code instead
invokes the destructor on a slot holding no constructed element (and would
then wrap `--size_` below zero): no completed erase exists. -/
theorem claim3_erase_counterexample :
    ¬ ∃ w : Vector Nat × Int,
      (Vector.empty : Vector Nat).Erase 0 = Except.ok w := by
  rintro ⟨w, hw⟩
  rw [show (Vector.empty : Vector Nat).Erase 0 = Except.error () from rfl] at hw
  exact Except.noConfusion hw

/-- C3 amended: a position outside `[begin, end]` returns the end position
with the array unmodified; a position in `[begin, end)` destroys the
element there, shifts the tail left by one (first-to-last), decrements the
size and never reallocates; the boundary position `end`, although accepted
by the code's range check, invokes the destructor on a non-live slot
(undefined behavior) instead of completing an erase. -/
theorem claim3_erase_amended (v : Vector α) (hwf : v.WF) (d : Int) :
    ((d < 0 ∨ (v.size : Int) < d) → v.Erase d = Except.ok (v, (v.size : Int))) ∧
    (∀ idx : Nat, d = (idx : Int) → idx < v.size →
      ∃ v' : Vector α, v.Erase d = Except.ok (v', (idx : Int)) ∧
        v'.size = v.size - 1 ∧ v'.data.capacity = v.data.capacity ∧
        (∀ i, i < idx → v'.elemAt i = v.elemAt i) ∧
        (∀ i, idx ≤ i → i < v.size - 1 → v'.elemAt i = v.elemAt (i + 1))) ∧
    (d = (v.size : Int) → v.Erase d = Except.error ()) := by
  refine ⟨fun h => Erase_outside v d h, ?_, ?_⟩
  · intro idx hd hlt
    rw [hd]
    exact Erase_ok_char v idx hlt hwf.1 (hwf.2.1 idx hlt)
  · intro hd
    rw [hd]
    exact Erase_at_end v (WF_elemAt_size v hwf)

/-- Witness for the amended C3, on the vector `[1, 9, 2, 3]` at
position 1. -/
theorem claim3_erase_amended_witness :
    (⟨⟨[some 1, some 9, some 2, some 3]⟩, 4⟩ : Vector Nat).WF ∧
    (∃ v' : Vector Nat,
      (⟨⟨[some 1, some 9, some 2, some 3]⟩, 4⟩ : Vector Nat).Erase 1 =
        Except.ok (v', 1) ∧
      v'.size = 3 ∧ v'.data.capacity = 4 ∧
      (∀ i, i < 1 → v'.elemAt i =
        (⟨⟨[some 1, some 9, some 2, some 3]⟩, 4⟩ : Vector Nat).elemAt i) ∧
      (∀ i, 1 ≤ i → i < 3 → v'.elemAt i =
        (⟨⟨[some 1, some 9, some 2, some 3]⟩, 4⟩ : Vector Nat).elemAt (i + 1))) := by
  refine ⟨by decide, ?_⟩
  exact (claim3_erase_amended (⟨⟨[some 1, some 9, some 2, some 3]⟩, 4⟩ : Vector Nat)
    (by decide) 1).2.1 1 rfl (by decide)

/-- C4: `Resize` does not preserve the container invariant: on a
well-formed vector of size 1 and capacity 5, `Resize 3` yields size 3 with
slots 1 and 2 unconstructed (the two default values are written to slots 3
and 4 instead), so the property that every logical index below the size
holds a constructed element is violated. -/
theorem claim4_resize_breaks_invariant :
    (⟨⟨[some 5, none, none, none, none]⟩, 1⟩ : Vector Nat).invariantHolds ∧
    ¬ ((⟨⟨[some 5, none, none, none, none]⟩, 1⟩ : Vector Nat).Resize 3).invariantHolds := by
  decide

/-- C5: starting from empty, the capacity after the k-th `PushBack` is the
least power of two at or above k; growth happens exactly when the size
equals the capacity and goes to `max 1 (2 * size)`; and pushing 1, 2, 3
from empty yields the sequence `[1, 2, 3]` with size 3 and capacity 4. -/
theorem claim5_pushBack_capacity_policy :
    (∀ (β : Type) (xs : List β), 1 ≤ xs.length →
      (pushSeq xs).size = xs.length ∧
      (∃ i, (pushSeq xs).data.capacity = 2 ^ i) ∧
      xs.length ≤ (pushSeq xs).data.capacity ∧
      (∀ j, xs.length ≤ 2 ^ j → (pushSeq xs).data.capacity ≤ 2 ^ j)) ∧
    (∀ (β : Type) (v : Vector β) (x : β),
      (v.size = v.data.capacity →
        (v.PushBack x).data.capacity = max 1 (2 * v.size)) ∧
      (v.size ≠ v.data.capacity →
        (v.PushBack x).data.capacity = v.data.capacity)) ∧
    ((pushSeq [1, 2, 3] : Vector Nat).size = 3 ∧
     (pushSeq [1, 2, 3] : Vector Nat).data.capacity = 4 ∧
     (pushSeq [1, 2, 3] : Vector Nat).elemAt 0 = some 1 ∧
     (pushSeq [1, 2, 3] : Vector Nat).elemAt 1 = some 2 ∧
     (pushSeq [1, 2, 3] : Vector Nat).elemAt 2 = some 3) := by
  refine ⟨?_, ?_, by decide⟩
  · intro β xs hk
    have hcap : capOK (pushSeq xs) := capOK_foldl xs Vector.empty capOK_empty
    have hsz : (pushSeq xs).size = xs.length := by
      rw [pushSeq, foldl_PushBack_size]
      rw [show (Vector.empty : Vector β).size = 0 from rfl, Nat.zero_add]
    obtain ⟨hwf, h0, h1⟩ := hcap
    obtain ⟨⟨i, hi⟩, hle, hlt⟩ := h1 (by omega)
    refine ⟨hsz, ⟨i, hi⟩, by omega, ?_⟩
    intro j hj
    rw [hi]
    exact pow2_minimal (by omega) hj
  · intro β v x
    constructor
    · intro h
      rw [Vector.PushBack, EmplaceBack_capacity, if_pos h]
      split
      case isTrue hz => omega
      case isFalse hz => omega
    · intro h
      rw [Vector.PushBack, EmplaceBack_capacity, if_neg h]

/-- Witness for C5: pushing five elements gives size 5 and capacity 8, the
least power of two at or above 5. -/
theorem claim5_pushBack_capacity_policy_witness :
    (1 ≤ ([5, 6, 7, 8, 9] : List Nat).length) ∧
    (pushSeq ([5, 6, 7, 8, 9] : List Nat)).size = 5 ∧
    (pushSeq ([5, 6, 7, 8, 9] : List Nat)).data.capacity = 8 ∧
    (∀ j, 5 ≤ 2 ^ j →
      (pushSeq ([5, 6, 7, 8, 9] : List Nat)).data.capacity ≤ 2 ^ j) := by
  have h := claim5_pushBack_capacity_policy.1 Nat [5, 6, 7, 8, 9] (by decide)
  exact ⟨by decide, h.1, by decide, h.2.2.2⟩

/-- C6: after copy assignment the target has the source's size and the
source's elements; the assignment deep-copies and swaps when the source is
larger than the target's capacity, and a copy failure on that path
propagates with the target untouched; otherwise it overwrites in place
(prefix assignment plus destruction or construction of the tail), which
likewise ends element-wise equal to the source. -/
theorem claim6_copy_assignment (a b : Vector α) (ha : a.size ≤ a.data.capacity)
    (hb : b.size ≤ b.data.capacity) :
    ((a.copyAssign b false).size = b.size ∧
     ∀ i < b.size, (a.copyAssign b false).elemAt i = b.elemAt i) ∧
    (∀ f, a.data.capacity < b.size → f < b.size →
      a.copyAssignThrow b (some f) = Except.error a) := by
  constructor
  · have hred : a.copyAssign b false =
        (if a.data.capacity < b.size then Vector.copyCtor b else a.CopyFrom b) := rfl
    rw [hred]
    split
    case isTrue h =>
      obtain ⟨h1, _, h3⟩ := copyCtor_char b hb
      exact ⟨h1, h3⟩
    case isFalse h =>
      have hcl : a.data.capacity = a.data.cells.length := rfl
      obtain ⟨h1, _, h3⟩ := CopyFrom_char a b ha hb (by omega)
      exact ⟨h1, h3⟩
  · intro f hcap hf
    have hs : (slice b.data.cells 0 b.size).length = b.size := by
      rw [slice_length _ _ _ (show b.size ≤ b.data.cells.length from hb)]
      omega
    have hct : Vector.copyCtorThrow b (some f) = Except.error () := by
      unfold Vector.copyCtorThrow uninitializedCopyN
      dsimp only
      rw [if_pos (by rw [hs]; exact hf)]
    unfold Vector.copyAssignThrow
    rw [if_pos hcap, hct]

/-- Witness for C6: assigning the three-element source `[7, 8, 9]` to a
two-element target of capacity 2, including the injected deep-copy
failure. -/
theorem claim6_copy_assignment_witness :
    ((⟨⟨[some 4, some 4]⟩, 2⟩ : Vector Nat).size ≤
      (⟨⟨[some 4, some 4]⟩, 2⟩ : Vector Nat).data.capacity) ∧
    ((⟨⟨[some 7, some 8, some 9]⟩, 3⟩ : Vector Nat).size ≤
      (⟨⟨[some 7, some 8, some 9]⟩, 3⟩ : Vector Nat).data.capacity) ∧
    ((⟨⟨[some 4, some 4]⟩, 2⟩ : Vector Nat).copyAssign
        (⟨⟨[some 7, some 8, some 9]⟩, 3⟩ : Vector Nat) false).size = 3 ∧
    (∀ i < 3, ((⟨⟨[some 4, some 4]⟩, 2⟩ : Vector Nat).copyAssign
        (⟨⟨[some 7, some 8, some 9]⟩, 3⟩ : Vector Nat) false).elemAt i =
      (⟨⟨[some 7, some 8, some 9]⟩, 3⟩ : Vector Nat).elemAt i) ∧
    ((⟨⟨[some 4, some 4]⟩, 2⟩ : Vector Nat).copyAssignThrow
        (⟨⟨[some 7, some 8, some 9]⟩, 3⟩ : Vector Nat) (some 1) =
      Except.error (⟨⟨[some 4, some 4]⟩, 2⟩ : Vector Nat)) := by
  have h := claim6_copy_assignment (⟨⟨[some 4, some 4]⟩, 2⟩ : Vector Nat)
    (⟨⟨[some 7, some 8, some 9]⟩, 3⟩ : Vector Nat) (by decide) (by decide)
  exact ⟨by decide, by decide, h.1.1, h.1.2, h.2 1 (by decide) (by decide)⟩

/-- C7: move construction and move assignment exchange the whole owned
state (block and size together) and cannot fail: the move-constructed
vector is exactly the source's pre-move state and the source is left
empty (size 0); move assignment of distinct objects gives the target the
source's pre-move state (the source receiving the target's old state by
the swap). -/
theorem claim7_move_semantics (a b : Vector α) :
    (Vector.moveCtor a).1 = a ∧
    (Vector.moveCtor a).2.size = 0 ∧
    (a.moveAssign b false).1 = b ∧
    (a.moveAssign b false).2 = a :=
  ⟨rfl, rfl, rfl, rfl⟩

/-- C8: for a position outside `[begin, end]`, `Insert`, `Emplace` and
`Erase` leave the array unmodified and return the end position, throwing
nothing (for `Erase` the result is an ordinary `Except.ok`, the
destructor call is never reached). -/
theorem claim8_invalid_position_noop (v : Vector α) (x : α) (d : Int)
    (h : d < 0 ∨ (v.size : Int) < d) :
    v.Insert d x = (v, (v.size : Int)) ∧
    v.Emplace d x = (v, (v.size : Int)) ∧
    v.Erase d = Except.ok (v, (v.size : Int)) :=
  ⟨Emplace_outside v x d h, Emplace_outside v x d h, Erase_outside v d h⟩

/-- Witness for C8 at position 5 of a one-element vector. -/
theorem claim8_invalid_position_noop_witness :
    ((5 : Int) < 0 ∨ (((⟨⟨[some 1]⟩, 1⟩ : Vector Nat).size : Int) < 5)) ∧
    (⟨⟨[some 1]⟩, 1⟩ : Vector Nat).Insert 5 9 =
      ((⟨⟨[some 1]⟩, 1⟩ : Vector Nat), 1) ∧
    (⟨⟨[some 1]⟩, 1⟩ : Vector Nat).Erase 5 =
      Except.ok ((⟨⟨[some 1]⟩, 1⟩ : Vector Nat), 1) := by
  have h := claim8_invalid_position_noop (⟨⟨[some 1]⟩, 1⟩ : Vector Nat) 9 5 (by decide)
  exact ⟨by decide, h.1, h.2.2⟩

/-- C9: inserting a value at a valid position and erasing at the returned
(same) position is a round trip: the final array has the original size and
the original elements (the capacity may have grown in between). -/
theorem claim9_insert_erase_roundtrip (v : Vector α)
    (hsz : v.size ≤ v.data.capacity) (idx : Nat) (hidx : idx ≤ v.size) (x : α) :
    ∃ v' v'' : Vector α,
      v.Insert (idx : Int) x = (v', (idx : Int)) ∧
      v'.Erase (idx : Int) = Except.ok (v'', (idx : Int)) ∧
      v''.size = v.size ∧
      ∀ i < v.size, v''.elemAt i = v.elemAt i := by
  obtain ⟨v', he, hsize, hlen, hlow, hat, hhigh⟩ := Emplace_char v hsz idx hidx x
  obtain ⟨v'', he2, hsize2, _, hlow2, hhigh2⟩ :=
    Erase_ok_char v' idx (by omega) (by omega)
      (by rw [hat]; exact Option.some_ne_none x)
  refine ⟨v', v'', he, he2, by omega, ?_⟩
  intro i hi
  by_cases hcase : i < idx
  · rw [hlow2 i hcase, hlow i hcase]
  · rw [hhigh2 i (by omega) (by omega), hhigh (i + 1) (by omega) (by omega),
      Nat.add_sub_cancel]

/-- Witness for C9 on the vector `[1, 2, 3]`, inserting 9 at position 1
and erasing it again. -/
theorem claim9_insert_erase_roundtrip_witness :
    ((⟨⟨[some 1, some 2, some 3]⟩, 3⟩ : Vector Nat).size ≤
      (⟨⟨[some 1, some 2, some 3]⟩, 3⟩ : Vector Nat).data.capacity) ∧
    (1 ≤ (⟨⟨[some 1, some 2, some 3]⟩, 3⟩ : Vector Nat).size) ∧
    (∃ v' v'' : Vector Nat,
      (⟨⟨[some 1, some 2, some 3]⟩, 3⟩ : Vector Nat).Insert 1 9 = (v', 1) ∧
      v'.Erase 1 = Except.ok (v'', 1) ∧
      v''.size = 3 ∧
      ∀ i < 3, v''.elemAt i =
        (⟨⟨[some 1, some 2, some 3]⟩, 3⟩ : Vector Nat).elemAt i) := by
  refine ⟨by decide, by decide, ?_⟩
  exact claim9_insert_erase_roundtrip (⟨⟨[some 1, some 2, some 3]⟩, 3⟩ : Vector Nat)
    (by decide) 1 (by decide) 9

/-- C10: self copy assignment and self move assignment are guarded
no-ops: the source compares `this` with `&rhs` and returns immediately,
leaving size, capacity and every element value unchanged. -/
theorem claim10_self_assignment (v : Vector α) :
    v.copyAssign v true = v ∧
    (v.copyAssign v true).size = v.size ∧
    (v.copyAssign v true).data.capacity = v.data.capacity ∧
    (∀ i, (v.copyAssign v true).elemAt i = v.elemAt i) ∧
    (v.moveAssign v true).1 = v ∧
    (v.moveAssign v true).2 = v :=
  ⟨rfl, rfl, rfl, fun _ => rfl, rfl, rfl⟩

end Adv
